import Mathlib

/-!
Verification of the singleton / mixin design-pattern demonstrations.

Python object identity is modelled by natural-number instance ids issued by a
monotone counter. Each singleton mechanism's registry of instances is modelled
explicitly, and its accessor becomes a state-passing function. Constructor
invocations are counted by ghost fields (`ctorCalls`, `loads`, `inits`) so the
"exactly once" properties are stateable. Threaded demonstrations become
deterministic interleaving machines driven by an explicit schedule of thread
indices, with one atomic step per source line.
-/

namespace DesignPatterns

/-! ## Decorator singleton (`02_decorator_example.py`) -/

/-- State of the `singleton` decorator closure from `02_decorator_example.py`
for one fixed wrapped class: `instances` is the entry of the closure dict
`instances` for that class (at most one per class), `nextId` issues fresh
instance identities, and `ctorCalls` is a ghost count of invocations of the
wrapped class constructor `cls(*args, **kwargs)`. -/
structure DecoratorState where
  instances : Option Nat
  nextId : Nat
  ctorCalls : Nat
deriving Repr, DecidableEq

/-- Initial closure state: the `instances` dict is empty. -/
def DecoratorState.init : DecoratorState := ⟨none, 0, 0⟩

/-- Body of `get_instance` from the `singleton` decorator:
`if cls not in instances: instances[cls] = cls(*args, **kwargs)` followed by
`return instances[cls]`. -/
def getInstance (s : DecoratorState) : DecoratorState × Nat :=
  match s.instances with
  | some v => (s, v)
  | none => (⟨some s.nextId, s.nextId + 1, s.ctorCalls + 1⟩, s.nextId)

/-- Run of `n` sequential calls to `get_instance`, collecting the returned
instances in order. -/
def getInstanceRuns : Nat → DecoratorState → DecoratorState × List Nat
  | 0, s => (s, [])
  | n + 1, s =>
    let p := getInstance s
    let q := getInstanceRuns n p.1
    (q.1, p.2 :: q.2)

/-- Variant of `get_instance` in which the wrapped constructor may raise
(`error_handling` for the decorator accessors): the assignment
`instances[cls] = cls(*args, **kwargs)` first evaluates `cls(...)`; if that
raises, the dict assignment never executes and the exception propagates.
`factory` maps the attempt number to the constructor outcome. -/
def getInstanceExc {E : Type} (factory : Nat → Except E Nat) (s : DecoratorState) :
    DecoratorState × Except E Nat :=
  match s.instances with
  | some v => (s, .ok v)
  | none =>
    match factory s.ctorCalls with
    | .error e => ({ s with ctorCalls := s.ctorCalls + 1 }, .error e)
    | .ok v => (⟨some v, s.nextId, s.ctorCalls + 1⟩, .ok v)

/-! ## Metaclass singleton (`03_metaclass_example.py`, `metaclass_example.py`) -/

/-- Class names occurring in the singleton demonstrations; the registry of
`SingletonMeta._instances` is keyed by these. -/
inductive PyClass where
  | Logger
  | FileLogger
  | ConfigManager
  | DatabaseConfigManager
  | Database
deriving Repr, DecidableEq

/-- State of `SingletonMeta`: `_instances` is an association list from class to
instance id; `nextId` issues fresh instance identities; `ctorCalls` is a ghost
count of `super().__call__(*args, **kwargs)` constructions. -/
structure MetaState where
  registry : List (PyClass × Nat)
  nextId : Nat
  ctorCalls : Nat
deriving Repr, DecidableEq

/-- Initial metaclass state: `_instances` is empty. -/
def MetaState.init : MetaState := ⟨[], 0, 0⟩

/-- Dict lookup `_instances[cls]` (also deciding `cls in _instances`). -/
def regFind (c : PyClass) : List (PyClass × Nat) → Option Nat
  | [] => none
  | (k, v) :: rest => if k = c then some v else regFind c rest

/-- Body of `SingletonMeta.__call__`:
`if cls not in cls._instances: cls._instances[cls] = super().__call__(...)`
followed by `return cls._instances[cls]`. A subclass construction such as
`FileLogger(...)` enters here with `cls = FileLogger`; the `super().__init__`
call inside `FileLogger.__init__` is a plain bound-method call on the same
object and does not reenter the metaclass. -/
def metaCall (c : PyClass) (s : MetaState) : MetaState × Nat :=
  match regFind c s.registry with
  | some v => (s, v)
  | none => (⟨(c, s.nextId) :: s.registry, s.nextId + 1, s.ctorCalls + 1⟩, s.nextId)

/-- Run of `n` sequential constructions of the same class `c`. -/
def metaCallRuns (c : PyClass) : Nat → MetaState → MetaState × List Nat
  | 0, s => (s, [])
  | n + 1, s =>
    let p := metaCall c s
    let q := metaCallRuns c n p.1
    (q.1, p.2 :: q.2)

/-- Run of a list of constructions (one `metaCall` per listed class), from
which reachable metaclass states are defined. -/
def runMetaCalls : List PyClass → MetaState → MetaState
  | [], s => s
  | c :: rest, s => runMetaCalls rest (metaCall c s).1

/-! ## The `__new__` pitfall (`01_new_pitfall.py`) -/

/-- State of `01_new_pitfall.ConfigManager`: `instanceSlot` is the class
attribute `_instance`, `loads` counts executions of `_load_config` and `inits`
counts executions of `__init__` (its print side effect). -/
structure NewPitfallState where
  instanceSlot : Option Nat
  nextId : Nat
  loads : Nat
  inits : Nat
deriving Repr, DecidableEq

/-- Initial class state: `_instance = None`. -/
def NewPitfallState.init : NewPitfallState := ⟨none, 0, 0, 0⟩

/-- One call `ConfigManager()`: Python runs `cls.__new__(cls)` — which lazily
allocates, stores `_instance` and runs `_load_config` — and then always runs
`__init__` on the returned object (the pitfall: `__init__` is not guarded). -/
def newPitfallCall (s : NewPitfallState) : NewPitfallState × Nat :=
  match s.instanceSlot with
  | some v => (⟨some v, s.nextId, s.loads, s.inits + 1⟩, v)
  | none => (⟨some s.nextId, s.nextId + 1, s.loads + 1, s.inits + 1⟩, s.nextId)

/-- Run of `n` sequential calls `ConfigManager()`. -/
def newPitfallRuns : Nat → NewPitfallState → NewPitfallState × List Nat
  | 0, s => (s, [])
  | n + 1, s =>
    let p := newPitfallCall s
    let q := newPitfallRuns n p.1
    (q.1, p.2 :: q.2)

/-! ## Environment-backed configuration (`_load_config`, `_load_db_config`) -/

/-- Result of `os.getenv(key, default)` over an environment modelled as a
partial map from variable names to values. -/
def getenvD (env : String → Option String) (key dflt : String) : String :=
  (env key).getD dflt

/-- ASCII lowering of one character, as Python `str.lower()` does on the ASCII
configuration strings used here. -/
def pyCharLower (c : Char) : Char :=
  if 'A' ≤ c ∧ c ≤ 'Z' then Char.ofNat (c.toNat + 32) else c

/-- Python `str.lower()` over the character list of a string. -/
def pyLower (s : String) : String := String.mk (s.data.map pyCharLower)

/-- Value of a decimal digit character, `none` on anything else. -/
def digitVal? (c : Char) : Option Nat :=
  if '0' ≤ c ∧ c ≤ '9' then some (c.toNat - '0'.toNat) else none

/-- Accumulating decimal parse of a digit list. -/
def pyNatAux : List Char → Nat → Option Nat
  | [], acc => some acc
  | c :: cs, acc =>
    match digitVal? c with
    | none => none
    | some d => pyNatAux cs (acc * 10 + d)

/-- Python `int(...)` on a decimal string: an optional leading minus sign then
one or more digits; `none` models the `ValueError` raised otherwise. -/
def pyInt? (s : String) : Option Int :=
  match s.data with
  | [] => none
  | '-' :: c :: cs => (pyNatAux (c :: cs) 0).map fun n => -(n : Int)
  | l => (pyNatAux l 0).map fun n => (n : Int)

/-- Configuration dict built by `ConfigManager._load_config` (identical in
`02_decorator_example.py`, `03_metaclass_example.py` and
`metaclass_example.py`). -/
structure Config where
  api_key : Option String
  debug_mode : Bool
  max_connections : Int
deriving Repr, DecidableEq

/-- Body of `_load_config`: `api_key` is `os.getenv("API_KEY")` (no default),
`debug_mode` is `os.getenv("DEBUG", "False").lower() == "true"`, and
`max_connections` is `int(os.getenv("MAX_CONN", "10"))`; the `int(...)` call
may raise, modelled by `Option`. -/
def loadConfig (env : String → Option String) : Option Config :=
  match pyInt? (getenvD env "MAX_CONN" "10") with
  | none => none
  | some mc => some ⟨env "API_KEY", pyLower (getenvD env "DEBUG" "False") == "true", mc⟩

/-- Database entries added by `DatabaseConfigManager._load_db_config` in
`metaclass_example.py`. -/
structure DbConfig where
  db_host : String
  db_port : Int
  db_name : String
deriving Repr, DecidableEq

/-- Body of `_load_db_config`: `db_host` is `os.getenv("DB_HOST", "localhost")`,
`db_port` is `int(os.getenv("DB_PORT", "5432"))` and `db_name` is
`os.getenv("DB_NAME", "myapp")`. -/
def loadDbConfig (env : String → Option String) : Option DbConfig :=
  match pyInt? (getenvD env "DB_PORT" "5432") with
  | none => none
  | some p => some ⟨getenvD env "DB_HOST" "localhost", p, getenvD env "DB_NAME" "myapp"⟩

/-! ## Mixin class hierarchy and method resolution

Classes of the two mixin demonstration files, their base-class lists as
declared in the source, and Python's C3 linearization computing the method
resolution order (MRO) used by attribute lookup and `super()`. -/

/-- Classes declared in `attribute_modifying_mixin_example.py` and
`mixin_constructor_pitfall_example.py`, plus the implicit root `object`. -/
inductive MixinCls where
  | PlainPizza
  | OlivesMixin
  | CheeseMixin
  | PepperoniMixin
  | DeluxePizza
  | VeggiePizza
  | MixinA
  | MixinB
  | MyClass
  | NameMixin
  | TimestampMixin
  | ClassA
  | ClassB
  | ClassC
  | PyObject
deriving Repr, DecidableEq

/-- Base-class lists exactly as written in the two source files; a class with
no explicit bases implicitly derives from `object`. -/
def mixinBases : MixinCls → List MixinCls
  | .PlainPizza => [.PyObject]
  | .OlivesMixin => [.PyObject]
  | .CheeseMixin => [.PyObject]
  | .PepperoniMixin => [.PyObject]
  | .DeluxePizza => [.OlivesMixin, .CheeseMixin, .PepperoniMixin, .PlainPizza]
  | .VeggiePizza => [.OlivesMixin, .CheeseMixin, .PlainPizza]
  | .MixinA => [.PyObject]
  | .MixinB => [.PyObject]
  | .MyClass => [.MixinA, .MixinB]
  | .NameMixin => [.PyObject]
  | .TimestampMixin => [.PyObject]
  | .ClassA => [.NameMixin]
  | .ClassB => [.NameMixin]
  | .ClassC => [.NameMixin, .TimestampMixin]
  | .PyObject => []

/-- A head candidate is good for the C3 merge when it appears in no tail of
any remaining linearization. -/
def c3GoodHead (c : MixinCls) (ls : List (List MixinCls)) : Bool :=
  ls.all fun l => !(l.tail.contains c)

/-- Removal of a chosen class from every remaining list, dropping emptied
lists. -/
def c3Remove (c : MixinCls) (ls : List (List MixinCls)) : List (List MixinCls) :=
  (ls.map fun l => l.filter fun x => x != c).filter fun l => !l.isEmpty

/-- C3 merge: repeatedly pick the first good head among the list heads; fuel
bounds the recursion and `none` reports an inconsistent hierarchy. -/
def c3Merge : Nat → List (List MixinCls) → Option (List MixinCls)
  | 0, _ => none
  | fuel + 1, ls =>
    let rem := ls.filter fun l => !l.isEmpty
    if rem.isEmpty then some []
    else
      match (rem.filterMap List.head?).find? (fun c => c3GoodHead c rem) with
      | none => none
      | some c => (c3Merge fuel (c3Remove c rem)).map fun r => c :: r

/-- C3 linearization: `L(C) = C :: merge(L(B1), ..., L(Bn), [B1, ..., Bn])`. -/
def linearize : Nat → MixinCls → Option (List MixinCls)
  | 0, _ => none
  | fuel + 1, c =>
    match (mixinBases c).mapM (linearize fuel) with
    | none => none
    | some ls => (c3Merge (fuel + 1) (ls ++ [mixinBases c])).map fun r => c :: r

/-- Method resolution order of a class, with enough fuel for this finite
hierarchy. -/
def mro (c : MixinCls) : List MixinCls := (linearize 16 c).getD []

/-- Method names contributed by the pizza classes. -/
inductive PizzaMethod where
  | add_olives
  | add_cheese
  | add_pepperoni
  | show_toppings
  | prepare_pizza
deriving Repr, DecidableEq

/-- Which class body defines which method, as written in
`attribute_modifying_mixin_example.py`. -/
def definesMethod : MixinCls → PizzaMethod → Bool
  | .OlivesMixin, .add_olives => true
  | .CheeseMixin, .add_cheese => true
  | .PepperoniMixin, .add_pepperoni => true
  | .PlainPizza, .show_toppings => true
  | .DeluxePizza, .prepare_pizza => true
  | .VeggiePizza, .prepare_pizza => true
  | _, _ => false

/-- Python attribute lookup: the first class along the MRO whose body defines
the method provides it. -/
def resolveMethod (c : MixinCls) (m : PizzaMethod) : Option MixinCls :=
  (mro c).find? fun k => definesMethod k m

/-! ## Pizza mixin bodies (`attribute_modifying_mixin_example.py`)

All methods read and write `self.toppings`, the single shared attribute set by
`PlainPizza.__init__`; the object state is that list. -/

/-- Attribute state set by `PlainPizza.__init__`: `self.toppings = []`. -/
def plainPizzaInit : List String := []

/-- Body of `OlivesMixin.add_olives`: `self.toppings += ["olives"]`. -/
def add_olives (toppings : List String) : List String := toppings ++ ["olives"]

/-- Body of `CheeseMixin.add_cheese`: `self.toppings += ["cheese"]`. -/
def add_cheese (toppings : List String) : List String := toppings ++ ["cheese"]

/-- Body of `PepperoniMixin.add_pepperoni`: `self.toppings += ["pepperoni"]`. -/
def add_pepperoni (toppings : List String) : List String := toppings ++ ["pepperoni"]

/-- Body of `DeluxePizza.prepare_pizza`: `self.add_olives()`,
`self.add_cheese()`, `self.add_pepperoni()` in that order. -/
def preparePizzaDeluxe (toppings : List String) : List String :=
  add_pepperoni (add_cheese (add_olives toppings))

/-- Body of `PlainPizza.show_toppings`:
the string `Toppings: ` followed by `', '.join(self.toppings)` when the list
is nonempty and by `none` otherwise. -/
def showToppings (toppings : List String) : String :=
  "Toppings: " ++ (if toppings.isEmpty then "none" else String.intercalate ", " toppings)

/-! ## Constructor pitfall bodies (`mixin_constructor_pitfall_example.py`) -/

/-- Execution of `__init__` dispatched along a suffix of an MRO containing
only the example-1 classes: Python's `super().__init__()` continues lookup in
the rest of the MRO; `MixinA.__init__` and `MixinB.__init__` print and do not
chain further; `object.__init__` has no visible effect. The returned list is
the print trace. -/
def initTraceFrom : List MixinCls → List String
  | [] => []
  | c :: rest =>
    match c with
    | .MyClass => initTraceFrom rest
    | .MixinA => ["MixinA init"]
    | .MixinB => ["MixinB init"]
    | _ => []

/-- Print trace of constructing `MyClass()`: `type.__call__` runs
`MyClass.__init__`, the first `__init__` along `mro MyClass`. -/
def myClassInitTrace : List String := initTraceFrom (mro .MyClass)

/-- Attribute namespace of a `ClassC` object. -/
structure CAttrs where
  name : Option String
  timestamp : Option Int
  c_value : Option Int
deriving Repr, DecidableEq

/-- Body of `NameMixin.__init__`: `self.name = name`. -/
def nameMixinInit (nm : String) (a : CAttrs) : CAttrs := { a with name := some nm }

/-- Body of `TimestampMixin.__init__`: `self.timestamp = timestamp`. -/
def timestampMixinInit (ts : Int) (a : CAttrs) : CAttrs := { a with timestamp := some ts }

/-- Body of `ClassC.__init__`: `NameMixin.__init__(self, name)` and
`TimestampMixin.__init__(self, timestamp)` invoked explicitly by name, then
`self.c_value = c_value`; the fresh object starts with no attributes set. -/
def classCInit (nm : String) (ts : Int) (cv : Int) : CAttrs :=
  let a1 := nameMixinInit nm ⟨none, none, none⟩
  let a2 := timestampMixinInit ts a1
  { a2 with c_value := some cv }

/-! ## Decorator subclassing pitfall (`04_decorator_subclassing_pitfall.py`) -/

/-- Python runtime values relevant to the subclassing pitfall: a name bound by
a class statement is a class object, while the `singleton` decorator rebinds
the name to the closure `get_instance`, a plain function. -/
inductive PyValue where
  | pyCls (c : PyClass)
  | pyFunc
deriving Repr, DecidableEq

/-- Python exceptions raised in the demonstrations. -/
inductive PyError where
  | typeError
deriving Repr, DecidableEq

/-- The `singleton` decorator applied to a class: it returns its inner
function `get_instance`, so the decorated name is a plain function value, no
longer the class object. -/
def singletonDecorate (_c : PyClass) : PyValue := .pyFunc

/-- Semantics of the class statement `class Sub(Base): ...` as exercised by
`demonstrate_decorator_issue`: Python's `type.__new__` accepts a class object
as a base and raises `TypeError` when the base is a plain function. -/
def declareSubclass (base : PyValue) (sub : PyClass) : Except PyError PyClass :=
  match base with
  | .pyCls _ => .ok sub
  | .pyFunc => .error .typeError

/-! ## Thread-safety demonstrations (`decorator_thread_safety_issue.py`)

Both `safe_singleton.get_instance` and `ThreadSafeSingletonMeta.__call__`
run, for one guarded class, the same double-checked-locking protocol:
an unguarded membership check, lock acquisition, a second membership check
under the lock, construction and publication, release, and a final registry
read. Each of those source lines is one atomic step; `time.sleep(0.01)` only
widens the race window and has no state effect. A schedule (list of thread
indices) determines the interleaving; a scheduled thread that is blocked on
the lock, finished, or out of range takes no step. -/

/-- Program counter of one thread running the guarded accessor once. -/
inductive ThreadPC where
  | outerCheck
  | acquire
  | innerCheck
  | construct
  | release
  | readReturn
  | finished (result : Nat)
deriving Repr, DecidableEq

/-- Shared state of the guarded accessor plus every thread's program counter:
`registry` is the guarded class's entry of the `instances` dict (respectively
`_instances`), `lock` holds the index of the owning thread, `constructions`
is a ghost count of constructor invocations and `nextId` issues fresh
instance identities. -/
structure LockState where
  nthreads : Nat
  registry : Option Nat
  lock : Option Nat
  constructions : Nat
  nextId : Nat
  pcs : Nat → ThreadPC

/-- Initial state for `n` threads, each about to run the accessor once on an
empty registry and a free lock. -/
def initLockState (n : Nat) : LockState :=
  ⟨n, none, none, 0, 0, fun _ => .outerCheck⟩

/-- Pointwise update of one thread's program counter. -/
def updPC (pcs : Nat → ThreadPC) (i : Nat) (pc : ThreadPC) : Nat → ThreadPC :=
  fun j => if j = i then pc else pcs j

/-- One atomic step of thread `i` in the double-checked-locking accessor:
`if cls not in instances` (outer), `lock.acquire()`, `if cls not in
instances` (inner), `instances[cls] = cls(...)`, `lock.release()`, and
`return instances[cls]`. Acquiring a held lock blocks, leaving the state
unchanged. -/
def threadStep (s : LockState) (i : Nat) : LockState :=
  if i < s.nthreads then
    match s.pcs i with
    | .outerCheck =>
      if s.registry.isSome then
        ⟨s.nthreads, s.registry, s.lock, s.constructions, s.nextId, updPC s.pcs i .readReturn⟩
      else
        ⟨s.nthreads, s.registry, s.lock, s.constructions, s.nextId, updPC s.pcs i .acquire⟩
    | .acquire =>
      match s.lock with
      | some _ => s
      | none =>
        ⟨s.nthreads, s.registry, some i, s.constructions, s.nextId, updPC s.pcs i .innerCheck⟩
    | .innerCheck =>
      if s.registry.isSome then
        ⟨s.nthreads, s.registry, s.lock, s.constructions, s.nextId, updPC s.pcs i .release⟩
      else
        ⟨s.nthreads, s.registry, s.lock, s.constructions, s.nextId, updPC s.pcs i .construct⟩
    | .construct =>
      ⟨s.nthreads, some s.nextId, s.lock, s.constructions + 1, s.nextId + 1,
        updPC s.pcs i .release⟩
    | .release =>
      ⟨s.nthreads, s.registry, none, s.constructions, s.nextId, updPC s.pcs i .readReturn⟩
    | .readReturn =>
      ⟨s.nthreads, s.registry, s.lock, s.constructions, s.nextId,
        updPC s.pcs i (.finished (s.registry.getD 0))⟩
    | .finished _ => s
  else s

/-- Execution of a whole schedule of thread indices. -/
def runSched (s : LockState) : List Nat → LockState
  | [] => s
  | i :: rest => runSched (threadStep s i) rest

/-- Whether a thread has returned from the accessor. -/
def ThreadPC.isFinished : ThreadPC → Bool
  | .finished _ => true
  | _ => false

/-- Every one of the `n` threads has returned. -/
def allFinished (n : Nat) (s : LockState) : Prop :=
  ∀ i, i < n → (s.pcs i).isFinished = true

instance (n : Nat) (s : LockState) : Decidable (allFinished n s) :=
  Nat.decidableBallLT n fun i _ => (s.pcs i).isFinished = true

/-- Program counters owned by the lock holder. -/
def ThreadPC.locked : ThreadPC → Prop
  | .innerCheck => True
  | .construct => True
  | .release => True
  | _ => False

/-- Safety invariant of the double-checked-locking machine. -/
structure LockInv (s : LockState) : Prop where
  holder : ∀ i, i < s.nthreads → (s.pcs i).locked → s.lock = some i
  holderRange : ∀ i, s.lock = some i → i < s.nthreads ∧ (s.pcs i).locked
  constructEmpty : ∀ i, i < s.nthreads → s.pcs i = .construct → s.registry = none
  releaseSome : ∀ i, i < s.nthreads → s.pcs i = .release → s.registry.isSome = true
  readSome : ∀ i, i < s.nthreads → s.pcs i = .readReturn → s.registry.isSome = true
  finishedReg : ∀ i r, i < s.nthreads → s.pcs i = .finished r → s.registry = some r
  regCount : ∀ v, s.registry = some v → s.constructions = 1
  emptyCount : s.registry = none → s.constructions = 0
  highPC : ∀ i, ¬ i < s.nthreads → s.pcs i = .outerCheck

/-! ## Unsafe decorator under interleaving (`unsafe_singleton`)

The unguarded accessor has no lock: the membership check and the dict
assignment are separate atomic steps, so two threads can both pass the check
and both assign, the second assignment replacing the first published
instance. -/

/-- Program counter of one thread running the unguarded accessor once. -/
inductive UnsafePC where
  | check
  | assign
  | readReturn
  | finished (result : Nat)
deriving Repr, DecidableEq

/-- Shared state of `unsafe_singleton.get_instance` for the guarded class. -/
structure UnsafeState where
  registry : Option Nat
  nextId : Nat
  pcs : Nat → UnsafePC

/-- Initial unsafe-accessor state for any number of threads. -/
def initUnsafeState : UnsafeState := ⟨none, 0, fun _ => .check⟩

/-- Pointwise update of one thread's program counter. -/
def updUPC (pcs : Nat → UnsafePC) (i : Nat) (pc : UnsafePC) : Nat → UnsafePC :=
  fun j => if j = i then pc else pcs j

/-- One atomic step of thread `i` in `unsafe_singleton.get_instance`:
`if cls not in instances` then, after the `time.sleep(0.01)` window,
`instances[cls] = cls(...)`, and finally `return instances[cls]`. -/
def unsafeStep (s : UnsafeState) (i : Nat) : UnsafeState :=
  match s.pcs i with
  | .check =>
    if s.registry.isSome then ⟨s.registry, s.nextId, updUPC s.pcs i .readReturn⟩
    else ⟨s.registry, s.nextId, updUPC s.pcs i .assign⟩
  | .assign => ⟨some s.nextId, s.nextId + 1, updUPC s.pcs i .readReturn⟩
  | .readReturn => ⟨s.registry, s.nextId, updUPC s.pcs i (.finished (s.registry.getD 0))⟩
  | .finished _ => s

/-- Execution of a schedule on the unguarded accessor. -/
def runUnsafe (s : UnsafeState) : List Nat → UnsafeState
  | [] => s
  | i :: rest => runUnsafe (unsafeStep s i) rest

/-! ## Supporting lemmas -/

lemma updPC_self (pcs : Nat → ThreadPC) (i : Nat) (pc : ThreadPC) :
    updPC pcs i pc i = pc := by simp [updPC]

lemma updPC_ne (pcs : Nat → ThreadPC) {i j : Nat} (pc : ThreadPC) (h : j ≠ i) :
    updPC pcs i pc j = pcs j := by simp [updPC, h]

lemma threadStep_inv {s : LockState} (i : Nat) (h : LockInv s) :
    LockInv (threadStep s i) := by
  by_cases hlt : i < s.nthreads
  · cases hpc : s.pcs i with
    | outerCheck =>
      cases hreg : s.registry with
      | some r =>
        have hstep : threadStep s i =
            ⟨s.nthreads, s.registry, s.lock, s.constructions, s.nextId,
              updPC s.pcs i .readReturn⟩ := by
          simp [threadStep, hlt, hpc, hreg]
        rw [hstep]
        refine ⟨?_, ?_, ?_, ?_, ?_, ?_, h.regCount, h.emptyCount, ?_⟩
        · dsimp only
          intro j hj hl
          by_cases hji : j = i
          · subst hji; rw [updPC_self] at hl; exact False.elim hl
          · rw [updPC_ne _ _ hji] at hl; exact h.holder j hj hl
        · dsimp only
          intro j hlk2
          obtain ⟨hj, hl⟩ := h.holderRange j hlk2
          refine ⟨hj, ?_⟩
          by_cases hji : j = i
          · subst hji; rw [hpc] at hl; exact False.elim hl
          · rw [updPC_ne _ _ hji]; exact hl
        · dsimp only
          intro j hj hcj
          by_cases hji : j = i
          · subst hji; rw [updPC_self] at hcj; exact ThreadPC.noConfusion hcj
          · rw [updPC_ne _ _ hji] at hcj; exact h.constructEmpty j hj hcj
        · dsimp only
          intro j hj hrj
          by_cases hji : j = i
          · subst hji; rw [updPC_self] at hrj; exact ThreadPC.noConfusion hrj
          · rw [updPC_ne _ _ hji] at hrj; exact h.releaseSome j hj hrj
        · dsimp only
          intro j hj hrj
          rw [hreg]; rfl
        · dsimp only
          intro j r' hj hfj
          by_cases hji : j = i
          · subst hji; rw [updPC_self] at hfj; exact ThreadPC.noConfusion hfj
          · rw [updPC_ne _ _ hji] at hfj; exact h.finishedReg j r' hj hfj
        · dsimp only
          intro j hj
          have hji : j ≠ i := fun hh => hj (hh ▸ hlt)
          rw [updPC_ne _ _ hji]; exact h.highPC j hj
      | none =>
        have hstep : threadStep s i =
            ⟨s.nthreads, s.registry, s.lock, s.constructions, s.nextId,
              updPC s.pcs i .acquire⟩ := by
          simp [threadStep, hlt, hpc, hreg]
        rw [hstep]
        refine ⟨?_, ?_, ?_, ?_, ?_, ?_, h.regCount, h.emptyCount, ?_⟩
        · dsimp only
          intro j hj hl
          by_cases hji : j = i
          · subst hji; rw [updPC_self] at hl; exact False.elim hl
          · rw [updPC_ne _ _ hji] at hl; exact h.holder j hj hl
        · dsimp only
          intro j hlk2
          obtain ⟨hj, hl⟩ := h.holderRange j hlk2
          refine ⟨hj, ?_⟩
          by_cases hji : j = i
          · subst hji; rw [hpc] at hl; exact False.elim hl
          · rw [updPC_ne _ _ hji]; exact hl
        · dsimp only
          intro j hj hcj
          by_cases hji : j = i
          · subst hji; rw [updPC_self] at hcj; exact ThreadPC.noConfusion hcj
          · rw [updPC_ne _ _ hji] at hcj; exact h.constructEmpty j hj hcj
        · dsimp only
          intro j hj hrj
          by_cases hji : j = i
          · subst hji; rw [updPC_self] at hrj; exact ThreadPC.noConfusion hrj
          · rw [updPC_ne _ _ hji] at hrj; exact h.releaseSome j hj hrj
        · dsimp only
          intro j hj hrj
          by_cases hji : j = i
          · subst hji; rw [updPC_self] at hrj; exact ThreadPC.noConfusion hrj
          · rw [updPC_ne _ _ hji] at hrj; exact h.readSome j hj hrj
        · dsimp only
          intro j r' hj hfj
          by_cases hji : j = i
          · subst hji; rw [updPC_self] at hfj; exact ThreadPC.noConfusion hfj
          · rw [updPC_ne _ _ hji] at hfj; exact h.finishedReg j r' hj hfj
        · dsimp only
          intro j hj
          have hji : j ≠ i := fun hh => hj (hh ▸ hlt)
          rw [updPC_ne _ _ hji]; exact h.highPC j hj
    | acquire =>
      cases hlk : s.lock with
      | some k =>
        have hstep : threadStep s i = s := by simp [threadStep, hlt, hpc, hlk]
        rw [hstep]; exact h
      | none =>
        have hstep : threadStep s i =
            ⟨s.nthreads, s.registry, some i, s.constructions, s.nextId,
              updPC s.pcs i .innerCheck⟩ := by
          simp [threadStep, hlt, hpc, hlk]
        rw [hstep]
        refine ⟨?_, ?_, ?_, ?_, ?_, ?_, h.regCount, h.emptyCount, ?_⟩
        · dsimp only
          intro j hj hl
          by_cases hji : j = i
          · subst hji; rfl
          · rw [updPC_ne _ _ hji] at hl
            have h2 := h.holder j hj hl
            rw [hlk] at h2
            exact Option.noConfusion h2
        · dsimp only
          intro j hlk2
          have hh : i = j := by injection hlk2
          subst hh
          exact ⟨hlt, by rw [updPC_self]; trivial⟩
        · dsimp only
          intro j hj hcj
          by_cases hji : j = i
          · subst hji; rw [updPC_self] at hcj; exact ThreadPC.noConfusion hcj
          · rw [updPC_ne _ _ hji] at hcj; exact h.constructEmpty j hj hcj
        · dsimp only
          intro j hj hrj
          by_cases hji : j = i
          · subst hji; rw [updPC_self] at hrj; exact ThreadPC.noConfusion hrj
          · rw [updPC_ne _ _ hji] at hrj; exact h.releaseSome j hj hrj
        · dsimp only
          intro j hj hrj
          by_cases hji : j = i
          · subst hji; rw [updPC_self] at hrj; exact ThreadPC.noConfusion hrj
          · rw [updPC_ne _ _ hji] at hrj; exact h.readSome j hj hrj
        · dsimp only
          intro j r' hj hfj
          by_cases hji : j = i
          · subst hji; rw [updPC_self] at hfj; exact ThreadPC.noConfusion hfj
          · rw [updPC_ne _ _ hji] at hfj; exact h.finishedReg j r' hj hfj
        · dsimp only
          intro j hj
          have hji : j ≠ i := fun hh => hj (hh ▸ hlt)
          rw [updPC_ne _ _ hji]; exact h.highPC j hj
    | innerCheck =>
      have hlocki : s.lock = some i := h.holder i hlt (by rw [hpc]; trivial)
      cases hreg : s.registry with
      | some r =>
        have hstep : threadStep s i =
            ⟨s.nthreads, s.registry, s.lock, s.constructions, s.nextId,
              updPC s.pcs i .release⟩ := by
          simp [threadStep, hlt, hpc, hreg]
        rw [hstep]
        refine ⟨?_, ?_, ?_, ?_, ?_, ?_, h.regCount, h.emptyCount, ?_⟩
        · dsimp only
          intro j hj hl
          by_cases hji : j = i
          · subst hji; exact hlocki
          · rw [updPC_ne _ _ hji] at hl; exact h.holder j hj hl
        · dsimp only
          intro j hlk2
          obtain ⟨hj, hl⟩ := h.holderRange j hlk2
          refine ⟨hj, ?_⟩
          by_cases hji : j = i
          · subst hji; rw [updPC_self]; trivial
          · rw [updPC_ne _ _ hji]; exact hl
        · dsimp only
          intro j hj hcj
          by_cases hji : j = i
          · subst hji; rw [updPC_self] at hcj; exact ThreadPC.noConfusion hcj
          · rw [updPC_ne _ _ hji] at hcj; exact h.constructEmpty j hj hcj
        · dsimp only
          intro j hj hrj
          rw [hreg]; rfl
        · dsimp only
          intro j hj hrj
          by_cases hji : j = i
          · subst hji; rw [updPC_self] at hrj; exact ThreadPC.noConfusion hrj
          · rw [updPC_ne _ _ hji] at hrj; exact h.readSome j hj hrj
        · dsimp only
          intro j r' hj hfj
          by_cases hji : j = i
          · subst hji; rw [updPC_self] at hfj; exact ThreadPC.noConfusion hfj
          · rw [updPC_ne _ _ hji] at hfj; exact h.finishedReg j r' hj hfj
        · dsimp only
          intro j hj
          have hji : j ≠ i := fun hh => hj (hh ▸ hlt)
          rw [updPC_ne _ _ hji]; exact h.highPC j hj
      | none =>
        have hstep : threadStep s i =
            ⟨s.nthreads, s.registry, s.lock, s.constructions, s.nextId,
              updPC s.pcs i .construct⟩ := by
          simp [threadStep, hlt, hpc, hreg]
        rw [hstep]
        refine ⟨?_, ?_, ?_, ?_, ?_, ?_, h.regCount, h.emptyCount, ?_⟩
        · dsimp only
          intro j hj hl
          by_cases hji : j = i
          · subst hji; exact hlocki
          · rw [updPC_ne _ _ hji] at hl; exact h.holder j hj hl
        · dsimp only
          intro j hlk2
          obtain ⟨hj, hl⟩ := h.holderRange j hlk2
          refine ⟨hj, ?_⟩
          by_cases hji : j = i
          · subst hji; rw [updPC_self]; trivial
          · rw [updPC_ne _ _ hji]; exact hl
        · dsimp only
          intro j hj hcj
          exact hreg
        · dsimp only
          intro j hj hrj
          by_cases hji : j = i
          · subst hji; rw [updPC_self] at hrj; exact ThreadPC.noConfusion hrj
          · rw [updPC_ne _ _ hji] at hrj; exact h.releaseSome j hj hrj
        · dsimp only
          intro j hj hrj
          by_cases hji : j = i
          · subst hji; rw [updPC_self] at hrj; exact ThreadPC.noConfusion hrj
          · rw [updPC_ne _ _ hji] at hrj; exact h.readSome j hj hrj
        · dsimp only
          intro j r' hj hfj
          by_cases hji : j = i
          · subst hji; rw [updPC_self] at hfj; exact ThreadPC.noConfusion hfj
          · rw [updPC_ne _ _ hji] at hfj; exact h.finishedReg j r' hj hfj
        · dsimp only
          intro j hj
          have hji : j ≠ i := fun hh => hj (hh ▸ hlt)
          rw [updPC_ne _ _ hji]; exact h.highPC j hj
    | construct =>
      have hlocki : s.lock = some i := h.holder i hlt (by rw [hpc]; trivial)
      have hregnone : s.registry = none := h.constructEmpty i hlt hpc
      have hcnt : s.constructions = 0 := h.emptyCount hregnone
      have hstep : threadStep s i =
          ⟨s.nthreads, some s.nextId, s.lock, s.constructions + 1, s.nextId + 1,
            updPC s.pcs i .release⟩ := by
        simp [threadStep, hlt, hpc]
      rw [hstep]
      refine ⟨?_, ?_, ?_, ?_, ?_, ?_, ?_, ?_, ?_⟩
      · dsimp only
        intro j hj hl
        by_cases hji : j = i
        · subst hji; exact hlocki
        · rw [updPC_ne _ _ hji] at hl; exact h.holder j hj hl
      · dsimp only
        intro j hlk2
        obtain ⟨hj, hl⟩ := h.holderRange j hlk2
        refine ⟨hj, ?_⟩
        by_cases hji : j = i
        · subst hji; rw [updPC_self]; trivial
        · rw [updPC_ne _ _ hji]; exact hl
      · dsimp only
        intro j hj hcj
        by_cases hji : j = i
        · subst hji; rw [updPC_self] at hcj; exact ThreadPC.noConfusion hcj
        · rw [updPC_ne _ _ hji] at hcj
          have hl : (s.pcs j).locked := by rw [hcj]; trivial
          have h2 := h.holder j hj hl
          rw [hlocki] at h2
          have hh : i = j := by injection h2
          exact absurd hh.symm hji
      · dsimp only
        intro j hj hrj
        rfl
      · dsimp only
        intro j hj hrj
        rfl
      · dsimp only
        intro j r' hj hfj
        by_cases hji : j = i
        · subst hji; rw [updPC_self] at hfj; exact ThreadPC.noConfusion hfj
        · rw [updPC_ne _ _ hji] at hfj
          have h2 := h.finishedReg j r' hj hfj
          rw [hregnone] at h2
          exact Option.noConfusion h2
      · dsimp only
        intro v hv
        rw [hcnt]
      · dsimp only
        intro hnone
        exact Option.noConfusion hnone
      · dsimp only
        intro j hj
        have hji : j ≠ i := fun hh => hj (hh ▸ hlt)
        rw [updPC_ne _ _ hji]; exact h.highPC j hj
    | release =>
      have hlocki : s.lock = some i := h.holder i hlt (by rw [hpc]; trivial)
      have hstep : threadStep s i =
          ⟨s.nthreads, s.registry, none, s.constructions, s.nextId,
            updPC s.pcs i .readReturn⟩ := by
        simp [threadStep, hlt, hpc]
      rw [hstep]
      refine ⟨?_, ?_, ?_, ?_, ?_, ?_, h.regCount, h.emptyCount, ?_⟩
      · dsimp only
        intro j hj hl
        by_cases hji : j = i
        · subst hji; rw [updPC_self] at hl; exact False.elim hl
        · rw [updPC_ne _ _ hji] at hl
          have h2 := h.holder j hj hl
          rw [hlocki] at h2
          have hh : i = j := by injection h2
          exact absurd hh.symm hji
      · dsimp only
        intro j hlk2
        exact Option.noConfusion hlk2
      · dsimp only
        intro j hj hcj
        by_cases hji : j = i
        · subst hji; rw [updPC_self] at hcj; exact ThreadPC.noConfusion hcj
        · rw [updPC_ne _ _ hji] at hcj; exact h.constructEmpty j hj hcj
      · dsimp only
        intro j hj hrj
        by_cases hji : j = i
        · subst hji; rw [updPC_self] at hrj; exact ThreadPC.noConfusion hrj
        · rw [updPC_ne _ _ hji] at hrj; exact h.releaseSome j hj hrj
      · dsimp only
        intro j hj hrj
        by_cases hji : j = i
        · subst hji; exact h.releaseSome _ hlt hpc
        · rw [updPC_ne _ _ hji] at hrj; exact h.readSome j hj hrj
      · dsimp only
        intro j r' hj hfj
        by_cases hji : j = i
        · subst hji; rw [updPC_self] at hfj; exact ThreadPC.noConfusion hfj
        · rw [updPC_ne _ _ hji] at hfj; exact h.finishedReg j r' hj hfj
      · dsimp only
        intro j hj
        have hji : j ≠ i := fun hh => hj (hh ▸ hlt)
        rw [updPC_ne _ _ hji]; exact h.highPC j hj
    | readReturn =>
      have hsome : s.registry.isSome = true := h.readSome i hlt hpc
      obtain ⟨r0, hr0⟩ := Option.isSome_iff_exists.mp hsome
      have hstep : threadStep s i =
          ⟨s.nthreads, s.registry, s.lock, s.constructions, s.nextId,
            updPC s.pcs i (.finished (s.registry.getD 0))⟩ := by
        simp [threadStep, hlt, hpc]
      rw [hstep]
      refine ⟨?_, ?_, ?_, ?_, ?_, ?_, h.regCount, h.emptyCount, ?_⟩
      · dsimp only
        intro j hj hl
        by_cases hji : j = i
        · subst hji; rw [updPC_self] at hl; exact False.elim hl
        · rw [updPC_ne _ _ hji] at hl; exact h.holder j hj hl
      · dsimp only
        intro j hlk2
        obtain ⟨hj, hl⟩ := h.holderRange j hlk2
        refine ⟨hj, ?_⟩
        by_cases hji : j = i
        · subst hji; rw [hpc] at hl; exact False.elim hl
        · rw [updPC_ne _ _ hji]; exact hl
      · dsimp only
        intro j hj hcj
        by_cases hji : j = i
        · subst hji; rw [updPC_self] at hcj; exact ThreadPC.noConfusion hcj
        · rw [updPC_ne _ _ hji] at hcj; exact h.constructEmpty j hj hcj
      · dsimp only
        intro j hj hrj
        by_cases hji : j = i
        · subst hji; rw [updPC_self] at hrj; exact ThreadPC.noConfusion hrj
        · rw [updPC_ne _ _ hji] at hrj; exact h.releaseSome j hj hrj
      · dsimp only
        intro j hj hrj
        by_cases hji : j = i
        · subst hji; rw [updPC_self] at hrj; exact ThreadPC.noConfusion hrj
        · rw [updPC_ne _ _ hji] at hrj; exact h.readSome j hj hrj
      · dsimp only
        intro j r' hj hfj
        by_cases hji : j = i
        · subst hji
          rw [updPC_self] at hfj
          have hh : s.registry.getD 0 = r' := by injection hfj
          subst hh
          rw [hr0]
          rfl
        · rw [updPC_ne _ _ hji] at hfj; exact h.finishedReg j r' hj hfj
      · dsimp only
        intro j hj
        have hji : j ≠ i := fun hh => hj (hh ▸ hlt)
        rw [updPC_ne _ _ hji]; exact h.highPC j hj
    | finished r =>
      have hstep : threadStep s i = s := by simp [threadStep, hlt, hpc]
      rw [hstep]; exact h
  · simpa [threadStep, hlt] using h

lemma initLockState_inv (n : Nat) : LockInv (initLockState n) := by
  refine ⟨?_, ?_, ?_, ?_, ?_, ?_, ?_, ?_, ?_⟩
  · intro j hj hl
    exact False.elim hl
  · intro j hlk
    exact Option.noConfusion hlk
  · intro j hj hcj
    exact ThreadPC.noConfusion hcj
  · intro j hj hrj
    exact ThreadPC.noConfusion hrj
  · intro j hj hrj
    exact ThreadPC.noConfusion hrj
  · intro j r hj hfj
    exact ThreadPC.noConfusion hfj
  · intro v hv
    exact Option.noConfusion hv
  · intro _
    rfl
  · intro j hj
    rfl

lemma runSched_inv (sched : List Nat) {s : LockState} (h : LockInv s) :
    LockInv (runSched s sched) := by
  induction sched generalizing s with
  | nil => exact h
  | cons i rest ih => exact ih (threadStep_inv i h)

lemma threadStep_nthreads (s : LockState) (i : Nat) :
    (threadStep s i).nthreads = s.nthreads := by
  unfold threadStep
  by_cases hlt : i < s.nthreads
  · simp only [hlt, if_pos]
    cases hpc : s.pcs i <;> dsimp only <;> first | rfl | (split <;> rfl)
  · simp [hlt]

lemma runSched_nthreads (sched : List Nat) (s : LockState) :
    (runSched s sched).nthreads = s.nthreads := by
  induction sched generalizing s with
  | nil => rfl
  | cons i rest ih => rw [runSched, ih, threadStep_nthreads]

lemma threadStep_registry_mono {s : LockState} (h : LockInv s) (i : Nat) {v : Nat}
    (hreg : s.registry = some v) : (threadStep s i).registry = some v := by
  unfold threadStep
  by_cases hlt : i < s.nthreads
  · simp only [hlt, if_pos]
    cases hpc : s.pcs i with
    | outerCheck => simp [hreg]
    | acquire => cases s.lock <;> simp [hreg]
    | innerCheck => simp [hreg]
    | construct =>
      have h2 := h.constructEmpty i hlt hpc
      rw [h2] at hreg
      exact Option.noConfusion hreg
    | release => simpa using hreg
    | readReturn => simpa using hreg
    | finished r => simpa using hreg
  · simpa [hlt] using hreg

lemma getInstanceRuns_some (ni cc v n : Nat) :
    getInstanceRuns n ⟨some v, ni, cc⟩ = (⟨some v, ni, cc⟩, List.replicate n v) := by
  induction n with
  | zero => rfl
  | succ n ih =>
    simp only [getInstanceRuns, getInstance]
    rw [ih]
    simp [List.replicate_succ]

lemma metaCallRuns_found {c : PyClass} {s : MetaState} {v : Nat}
    (h : regFind c s.registry = some v) (n : Nat) :
    metaCallRuns c n s = (s, List.replicate n v) := by
  induction n with
  | zero => rfl
  | succ n ih =>
    simp only [metaCallRuns, metaCall, h]
    rw [ih]
    simp [List.replicate_succ]

lemma newPitfallRuns_some (v ni ld : Nat) (n : Nat) : ∀ it : Nat,
    newPitfallRuns n ⟨some v, ni, ld, it⟩ = (⟨some v, ni, ld, it + n⟩, List.replicate n v) := by
  induction n with
  | zero => intro it; rfl
  | succ n ih =>
    intro it
    simp only [newPitfallRuns, newPitfallCall]
    rw [ih (it + 1)]
    simp [List.replicate_succ]
    omega

/-- Values stored in the metaclass registry are below the id counter. -/
def MetaValuesBounded (s : MetaState) : Prop :=
  ∀ c v, regFind c s.registry = some v → v < s.nextId

/-- Distinct classes hold distinct instances in the metaclass registry. -/
def MetaValuesDistinct (s : MetaState) : Prop :=
  ∀ c c' v v', c ≠ c' → regFind c s.registry = some v →
    regFind c' s.registry = some v' → v ≠ v'

lemma metaCall_metaInv (c0 : PyClass) {s : MetaState}
    (hB : MetaValuesBounded s) (hD : MetaValuesDistinct s) :
    MetaValuesBounded (metaCall c0 s).1 ∧ MetaValuesDistinct (metaCall c0 s).1 := by
  cases hfind : regFind c0 s.registry with
  | some v =>
    simp only [metaCall, hfind]
    exact ⟨hB, hD⟩
  | none =>
    simp only [metaCall, hfind]
    constructor
    · intro c v hcv
      dsimp only at hcv ⊢
      by_cases hc : c0 = c
      · simp [regFind, hc] at hcv
        omega
      · simp [regFind, hc] at hcv
        have := hB c v hcv
        omega
    · intro c c' v v' hne hcv hcv'
      dsimp only at hcv hcv'
      by_cases hc : c0 = c <;> by_cases hc' : c0 = c'
      · exact absurd (hc ▸ hc') hne
      · simp [regFind, hc] at hcv
        simp [regFind, hc'] at hcv'
        have := hB c' v' hcv'
        omega
      · simp [regFind, hc] at hcv
        simp [regFind, hc'] at hcv'
        have := hB c v hcv
        omega
      · simp [regFind, hc, hc'] at hcv hcv'
        exact hD c c' v v' hne hcv hcv'

lemma runMetaCalls_metaInv (calls : List PyClass) :
    MetaValuesBounded (runMetaCalls calls MetaState.init) ∧
    MetaValuesDistinct (runMetaCalls calls MetaState.init) := by
  have hgen : ∀ s, MetaValuesBounded s → MetaValuesDistinct s →
      MetaValuesBounded (runMetaCalls calls s) ∧
      MetaValuesDistinct (runMetaCalls calls s) := by
    induction calls with
    | nil => intro s hB hD; exact ⟨hB, hD⟩
    | cons c rest ih =>
      intro s hB hD
      obtain ⟨hB', hD'⟩ := metaCall_metaInv c hB hD
      exact ih _ hB' hD'
  refine hgen _ ?_ ?_
  · intro c v hcv
    exact Option.noConfusion hcv
  · intro c c' v v' hne hcv hcv'
    exact Option.noConfusion hcv

/-! ## Claims -/

/-- Claim C1: for the lock-guarded singleton accessor (the `safe_singleton`
decorator and `ThreadSafeSingletonMeta`), for every `n ≥ 2` concurrent threads
each calling the guarded constructor once, under every interleaving in which
all threads complete, exactly one underlying construction occurs and all `n`
callers receive the same single instance. -/
theorem safe_singleton_concurrent_single_instance (n : Nat) (sched : List Nat)
    (hn : 2 ≤ n)
    (hdone : allFinished n (runSched (initLockState n) sched)) :
    (runSched (initLockState n) sched).constructions = 1 ∧
    ∃ v, (runSched (initLockState n) sched).registry = some v ∧
      ∀ i, i < n → (runSched (initLockState n) sched).pcs i = .finished v := by
  have hinv : LockInv (runSched (initLockState n) sched) :=
    runSched_inv sched (initLockState_inv n)
  have hnt : (runSched (initLockState n) sched).nthreads = n :=
    runSched_nthreads sched (initLockState n)
  set t := runSched (initLockState n) sched with ht
  have hex : ∀ i, i < n → ∃ r, t.pcs i = .finished r := by
    intro i hi
    cases hp : t.pcs i <;>
      first
      | exact ⟨_, rfl⟩
      | (have hf := hdone i hi; rw [hp] at hf; exact absurd hf (by decide))
  obtain ⟨v, hv⟩ := hex 0 (by omega)
  have hreg : t.registry = some v := hinv.finishedReg 0 v (by rw [hnt]; omega) hv
  refine ⟨hinv.regCount v hreg, v, hreg, ?_⟩
  intro i hi
  obtain ⟨r, hr⟩ := hex i hi
  have hregi : t.registry = some r := hinv.finishedReg i r (by rw [hnt]; exact hi) hr
  rw [hreg] at hregi
  have hvr : v = r := by injection hregi
  rw [hr, hvr]

/-- Witness for C1: two threads, the first running the accessor to completion
and then the second; the run finishes with one construction and both threads
holding the same instance. -/
theorem safe_singleton_concurrent_single_instance_witness :
    2 ≤ 2 ∧
    allFinished 2 (runSched (initLockState 2) [0, 0, 0, 0, 0, 0, 1, 1]) ∧
    ((runSched (initLockState 2) [0, 0, 0, 0, 0, 0, 1, 1]).constructions = 1 ∧
      ∃ v, (runSched (initLockState 2) [0, 0, 0, 0, 0, 0, 1, 1]).registry = some v ∧
        ∀ i, i < 2 →
          (runSched (initLockState 2) [0, 0, 0, 0, 0, 0, 1, 1]).pcs i = .finished v) :=
  ⟨by decide, by decide,
    safe_singleton_concurrent_single_instance 2 [0, 0, 0, 0, 0, 0, 1, 1]
      (by decide) (by decide)⟩

/-- Claim C2: each sequential singleton accessor (the decorator `get_instance`
and `SingletonMeta.__call__`) called `n ≥ 1` times for a fixed class invokes
the wrapped constructor exactly once — on the first call — and every call
returns the same instance as the first (instance id 0 from the fresh
counter). -/
theorem sequential_singleton_constructs_once (n : Nat) (c : PyClass) (hn : 1 ≤ n) :
    ((getInstanceRuns n DecoratorState.init).1.ctorCalls = 1 ∧
      (getInstanceRuns n DecoratorState.init).2 = List.replicate n 0) ∧
    ((metaCallRuns c n MetaState.init).1.ctorCalls = 1 ∧
      (metaCallRuns c n MetaState.init).2 = List.replicate n 0) := by
  obtain ⟨m, rfl⟩ : ∃ m, n = m + 1 := ⟨n - 1, by omega⟩
  constructor
  · have h1 : getInstance DecoratorState.init = (⟨some 0, 1, 1⟩, 0) := rfl
    simp only [getInstanceRuns, h1]
    rw [getInstanceRuns_some 1 1 0 m]
    exact ⟨rfl, rfl⟩
  · have h1 : metaCall c MetaState.init = (⟨[(c, 0)], 1, 1⟩, 0) := rfl
    simp only [metaCallRuns, h1]
    have hf : regFind c (⟨[(c, 0)], 1, 1⟩ : MetaState).registry = some 0 := by
      simp [regFind]
    rw [metaCallRuns_found hf m]
    exact ⟨rfl, rfl⟩

/-- Witness for C2 at two calls of the `ConfigManager` class. -/
theorem sequential_singleton_constructs_once_witness :
    1 ≤ 2 ∧
    (((getInstanceRuns 2 DecoratorState.init).1.ctorCalls = 1 ∧
        (getInstanceRuns 2 DecoratorState.init).2 = List.replicate 2 0) ∧
      ((metaCallRuns .ConfigManager 2 MetaState.init).1.ctorCalls = 1 ∧
        (metaCallRuns .ConfigManager 2 MetaState.init).2 = List.replicate 2 0)) :=
  ⟨by decide, sequential_singleton_constructs_once 2 .ConfigManager (by decide)⟩

/-- Claim C4: if the wrapped constructor raises on the first decorator call,
nothing is published — the `instances` entry stays empty, the exception
propagates — and a subsequent call attempts construction again (the ghost
attempt counter advances on both calls). -/
theorem decorator_factory_failure_not_published {E : Type}
    (factory : Nat → Except E Nat) (s : DecoratorState) (e : E)
    (h0 : s.instances = none) (hf : factory s.ctorCalls = .error e) :
    (getInstanceExc factory s).1.instances = none ∧
    (getInstanceExc factory s).2 = .error e ∧
    (getInstanceExc factory s).1.ctorCalls = s.ctorCalls + 1 ∧
    (getInstanceExc factory (getInstanceExc factory s).1).1.ctorCalls = s.ctorCalls + 2 := by
  obtain ⟨inst, ni, cc⟩ := s
  dsimp only at h0 hf
  subst h0
  simp only [getInstanceExc, hf]
  cases hfac : factory (cc + 1) <;> simp

/-- Witness for C4: a constructor failing on attempt 0 and succeeding later. -/
theorem decorator_factory_failure_not_published_witness :
    (DecoratorState.init.instances = none ∧
      (fun k => if k = 0 then (.error .typeError : Except PyError Nat) else .ok 42)
          DecoratorState.init.ctorCalls = .error .typeError) ∧
    ((getInstanceExc
        (fun k => if k = 0 then (.error .typeError : Except PyError Nat) else .ok 42)
        DecoratorState.init).1.instances = none ∧
      (getInstanceExc
        (fun k => if k = 0 then (.error .typeError : Except PyError Nat) else .ok 42)
        DecoratorState.init).2 = .error .typeError ∧
      (getInstanceExc
        (fun k => if k = 0 then (.error .typeError : Except PyError Nat) else .ok 42)
        DecoratorState.init).1.ctorCalls = DecoratorState.init.ctorCalls + 1 ∧
      (getInstanceExc
        (fun k => if k = 0 then (.error .typeError : Except PyError Nat) else .ok 42)
        (getInstanceExc
          (fun k => if k = 0 then (.error .typeError : Except PyError Nat) else .ok 42)
          DecoratorState.init).1).1.ctorCalls = DecoratorState.init.ctorCalls + 2) :=
  ⟨⟨rfl, rfl⟩,
    decorator_factory_failure_not_published
      (fun k => if k = 0 then (.error .typeError : Except PyError Nat) else .ok 42)
      DecoratorState.init .typeError rfl rfl⟩

/-- Claim C5: the `singleton` decorator replaces the class object with the
plain function `get_instance`, and declaring a subclass of the wrapped name
therefore raises `TypeError`. -/
theorem decorator_subclassing_raises_typeerror (c sub : PyClass) :
    singletonDecorate c = .pyFunc ∧
    declareSubclass (singletonDecorate c) sub = .error .typeError :=
  ⟨rfl, rfl⟩

/-- Witness for C5 at the demonstration classes `Logger` and `FileLogger`. -/
theorem decorator_subclassing_raises_typeerror_witness :
    singletonDecorate .Logger = .pyFunc ∧
    declareSubclass (singletonDecorate .Logger) .FileLogger = .error .typeError :=
  decorator_subclassing_raises_typeerror .Logger .FileLogger

/-- Claim C6: constructing `MyClass` under single-path `super()` chaining runs
only `MixinA.__init__` and skips `MixinB.__init__`; `ClassC`, which invokes
each ancestor initializer explicitly by name, runs both mixin initializers and
sets all three attributes. -/
theorem mixin_constructor_pitfall_trace (nm : String) (ts cv : Int) :
    myClassInitTrace = ["MixinA init"] ∧
    "MixinB init" ∉ myClassInitTrace ∧
    classCInit nm ts cv = ⟨some nm, some ts, some cv⟩ :=
  ⟨by decide, by decide, rfl⟩

/-- Witness for C6 at the demonstration arguments of `ClassC`. -/
theorem mixin_constructor_pitfall_trace_witness :
    myClassInitTrace = ["MixinA init"] ∧
    "MixinB init" ∉ myClassInitTrace ∧
    classCInit "Carol" 1234567890 789 = ⟨some "Carol", some 1234567890, some 789⟩ :=
  mixin_constructor_pitfall_trace "Carol" 1234567890 789

/-- Claim C7: `DeluxePizza` resolves the union of the methods contributed by
its mixins and base (each to the contributing class), and after
`prepare_pizza` on a fresh pizza the shared `toppings` attribute holds exactly
`olives, cheese, pepperoni` in order, as `show_toppings` reports. -/
theorem mixin_union_and_shared_state :
    resolveMethod .DeluxePizza .add_olives = some .OlivesMixin ∧
    resolveMethod .DeluxePizza .add_cheese = some .CheeseMixin ∧
    resolveMethod .DeluxePizza .add_pepperoni = some .PepperoniMixin ∧
    resolveMethod .DeluxePizza .show_toppings = some .PlainPizza ∧
    preparePizzaDeluxe plainPizzaInit = ["olives", "cheese", "pepperoni"] ∧
    showToppings (preparePizzaDeluxe plainPizzaInit) = "Toppings: olives, cheese, pepperoni" := by
  refine ⟨?_, ?_, ?_, ?_, ?_, ?_⟩ <;> rfl

/-- Claim C8: with the corresponding environment variables unset, the
configuration loaders fall back to the defaults: no API key, `debug_mode`
false, 10 connections, host `localhost`, port 5432, database `myapp`. -/
theorem config_env_defaults (env : String → Option String)
    (hA : env "API_KEY" = none) (hD : env "DEBUG" = none)
    (hM : env "MAX_CONN" = none) (hH : env "DB_HOST" = none)
    (hP : env "DB_PORT" = none) (hN : env "DB_NAME" = none) :
    loadConfig env = some ⟨none, false, 10⟩ ∧
    loadDbConfig env = some ⟨"localhost", 5432, "myapp"⟩ := by
  constructor
  · unfold loadConfig getenvD
    rw [hA, hD, hM]
    rfl
  · unfold loadDbConfig getenvD
    rw [hH, hP, hN]
    rfl

/-- Witness for C8 on the empty environment. -/
theorem config_env_defaults_witness :
    ((fun _ => (none : Option String)) "API_KEY" = none ∧
      (fun _ => (none : Option String)) "DEBUG" = none ∧
      (fun _ => (none : Option String)) "MAX_CONN" = none ∧
      (fun _ => (none : Option String)) "DB_HOST" = none ∧
      (fun _ => (none : Option String)) "DB_PORT" = none ∧
      (fun _ => (none : Option String)) "DB_NAME" = none) ∧
    (loadConfig (fun _ => none) = some ⟨none, false, 10⟩ ∧
      loadDbConfig (fun _ => none) = some ⟨"localhost", 5432, "myapp"⟩) :=
  ⟨⟨rfl, rfl, rfl, rfl, rfl, rfl⟩,
    config_env_defaults (fun _ => none) rfl rfl rfl rfl rfl rfl⟩

/-- Claim C9: for the `__new__`-based singleton, `n ≥ 1` sequential calls all
return the same instance, `__init__` runs on every call, and `_load_config`
runs only on the first. -/
theorem new_pitfall_init_every_call (n : Nat) (hn : 1 ≤ n) :
    (newPitfallRuns n NewPitfallState.init).2 = List.replicate n 0 ∧
    (newPitfallRuns n NewPitfallState.init).1.loads = 1 ∧
    (newPitfallRuns n NewPitfallState.init).1.inits = n := by
  obtain ⟨m, rfl⟩ : ∃ m, n = m + 1 := ⟨n - 1, by omega⟩
  have h1 : newPitfallCall NewPitfallState.init = (⟨some 0, 1, 1, 1⟩, 0) := rfl
  simp only [newPitfallRuns, h1]
  rw [newPitfallRuns_some 0 1 1 m 1]
  refine ⟨rfl, rfl, ?_⟩
  dsimp only
  omega

/-- Witness for C9 at two calls. -/
theorem new_pitfall_init_every_call_witness :
    1 ≤ 2 ∧
    ((newPitfallRuns 2 NewPitfallState.init).2 = List.replicate 2 0 ∧
      (newPitfallRuns 2 NewPitfallState.init).1.loads = 1 ∧
      (newPitfallRuns 2 NewPitfallState.init).1.inits = 2) :=
  ⟨by decide, new_pitfall_init_every_call 2 (by decide)⟩

/-- Claim C10: from any reachable metaclass-registry state in which `Logger`
holds instance `v`, constructing the `FileLogger` singleton yields an instance
distinct from `v` and leaves `Logger`'s registry entry unchanged. -/
theorem metaclass_subclass_distinct_instances (calls : List PyClass) (v : Nat)
    (h : regFind .Logger (runMetaCalls calls MetaState.init).registry = some v) :
    ∃ w,
      regFind .FileLogger
          ((metaCall .FileLogger (runMetaCalls calls MetaState.init)).1).registry = some w ∧
      regFind .Logger
          ((metaCall .FileLogger (runMetaCalls calls MetaState.init)).1).registry = some v ∧
      w ≠ v := by
  obtain ⟨hB, hD⟩ := runMetaCalls_metaInv calls
  set t := runMetaCalls calls MetaState.init with ht
  cases hfind : regFind .FileLogger t.registry with
  | some w =>
    have hmc : metaCall .FileLogger t = (t, w) := by simp [metaCall, hfind]
    refine ⟨w, ?_, ?_, ?_⟩
    · rw [hmc]; exact hfind
    · rw [hmc]; exact h
    · exact hD .FileLogger .Logger w v (by decide) hfind h
  | none =>
    have hmc : (metaCall .FileLogger t).1 =
        ⟨(.FileLogger, t.nextId) :: t.registry, t.nextId + 1, t.ctorCalls + 1⟩ := by
      simp [metaCall, hfind]
    refine ⟨t.nextId, ?_, ?_, ?_⟩
    · rw [hmc]; simp [regFind]
    · rw [hmc]
      dsimp only
      simp only [regFind]
      rw [if_neg (by decide)]
      exact h
    · have := hB .Logger v h
      omega

/-- Witness for C10: with `Logger` registered first, constructing the
`FileLogger` singleton yields a different instance and keeps `Logger`'s
entry. -/
theorem metaclass_subclass_distinct_instances_witness :
    regFind .Logger (runMetaCalls [.Logger] MetaState.init).registry = some 0 ∧
    ∃ w,
      regFind .FileLogger
          ((metaCall .FileLogger (runMetaCalls [.Logger] MetaState.init)).1).registry = some w ∧
      regFind .Logger
          ((metaCall .FileLogger (runMetaCalls [.Logger] MetaState.init)).1).registry = some 0 ∧
      w ≠ 0 :=
  ⟨by decide, metaclass_subclass_distinct_instances [.Logger] 0 (by decide)⟩

/-- Counterexample to claim C3 as stated: the unguarded `unsafe_singleton`
accessor is a singleton mechanism of the repository, and under the interleaved
execution in which both threads pass the membership check, the second dict
assignment replaces the already-set registry entry (instance 0) with a
different instance (instance 1) — the very race its own demonstration and test
exhibit. -/
theorem unsafe_singleton_replaces_registry_entry :
    (runUnsafe initUnsafeState [0, 1, 0]).registry = some 0 ∧
    (unsafeStep (runUnsafe initUnsafeState [0, 1, 0]) 1).registry = some 1 ∧
    (1 : Nat) ≠ 0 :=
  ⟨rfl, rfl, by decide⟩

/-- Claim C3 amended: every singleton mechanism of the repository other than
the deliberately race-prone `unsafe_singleton` preserves the registry
invariant — once a class's entry is set, no operation (sequential accessor
call, or atomic step of the lock-guarded accessor from any reachable state)
replaces it. -/
theorem singleton_registry_entry_stable :
    (∀ (s : DecoratorState) (v : Nat), s.instances = some v →
      (getInstance s).1.instances = some v) ∧
    (∀ (factory : Nat → Except PyError Nat) (s : DecoratorState) (v : Nat),
      s.instances = some v → (getInstanceExc factory s).1.instances = some v) ∧
    (∀ (c c' : PyClass) (s : MetaState) (v : Nat), regFind c s.registry = some v →
      regFind c ((metaCall c' s).1).registry = some v) ∧
    (∀ (s : NewPitfallState) (v : Nat), s.instanceSlot = some v →
      (newPitfallCall s).1.instanceSlot = some v) ∧
    (∀ (n : Nat) (sched : List Nat) (i v : Nat),
      (runSched (initLockState n) sched).registry = some v →
      (threadStep (runSched (initLockState n) sched) i).registry = some v) := by
  refine ⟨?_, ?_, ?_, ?_, ?_⟩
  · intro s v h
    simp [getInstance, h]
  · intro factory s v h
    simp [getInstanceExc, h]
  · intro c c' s v h
    cases hf : regFind c' s.registry with
    | some w => simp [metaCall, hf, h]
    | none =>
      by_cases hcc : c' = c
      · subst hcc
        rw [h] at hf
        exact Option.noConfusion hf
      · simp [metaCall, hf, regFind, hcc, h]
  · intro s v h
    simp [newPitfallCall, h]
  · intro n sched i v h
    exact threadStep_registry_mono (runSched_inv sched (initLockState_inv n)) i h

/-- Witness for the amended C3 at concrete registries holding an instance. -/
theorem singleton_registry_entry_stable_witness :
    (getInstance ⟨some 7, 8, 1⟩).1.instances = some 7 ∧
    (getInstanceExc (fun _ => (.ok 9 : Except PyError Nat)) ⟨some 7, 8, 1⟩).1.instances = some 7 ∧
    regFind .Logger ((metaCall .FileLogger ⟨[(.Logger, 0)], 1, 1⟩).1).registry = some 0 ∧
    (newPitfallCall ⟨some 3, 4, 1, 2⟩).1.instanceSlot = some 3 ∧
    (threadStep (runSched (initLockState 2) [0, 1, 0, 0, 0]) 1).registry = some 0 :=
  ⟨singleton_registry_entry_stable.1 ⟨some 7, 8, 1⟩ 7 rfl,
    singleton_registry_entry_stable.2.1 (fun _ => .ok 9) ⟨some 7, 8, 1⟩ 7 rfl,
    singleton_registry_entry_stable.2.2.1 .Logger .FileLogger ⟨[(.Logger, 0)], 1, 1⟩ 0 (by decide),
    singleton_registry_entry_stable.2.2.2.1 ⟨some 3, 4, 1, 2⟩ 3 rfl,
    singleton_registry_entry_stable.2.2.2.2 2 [0, 1, 0, 0, 0] 1 0 (by decide)⟩

end DesignPatterns
